import Mathlib

/-!
Verification of the playbook-matching core of the
mergers-and-acquisitions-integration-accelerator repository.

Strings are modelled as lists of Unicode code points (`List Nat`), so that
Python's character-level operations (`str.upper`, `str.find`, `str.replace`)
become plain arithmetic and list functions.  `enc` converts a Lean string
literal to this representation for concrete examples.

The embedded functions follow
`src/dashboard/resources/conformance-pack-compliance-processor/lambda_function.py`
(`get_prefix`, `process_remediations`) and
`src/resources/config-rule-playbook-mapping/load-config-rule-playbook-mapping.py`
(`build_normalized_name`, the item-building loop of `main`).
-/

namespace MAIA

/-- Strings as lists of code points. -/
abbrev Str := List Nat

/-- Encode a Lean string literal as a list of code points. -/
def enc (s : String) : Str := s.data.map Char.toNat

/-- Code point of the hyphen character. -/
def HYPHEN : Nat := 45

/-- Code point of the underscore character. -/
def UNDERSCORE : Nat := 95

/-- Python `str.upper`, restricted to its ASCII action, at the level of one
code point: lowercase ASCII letters are shifted to uppercase, everything
else is unchanged. -/
def pyCharUpper (c : Nat) : Nat := if 97 ≤ c ∧ c ≤ 122 then c - 32 else c

/-- Python `str.upper` on a whole string. -/
def pyUpper (s : Str) : Str := s.map pyCharUpper

/-- The literal marker searched for by `get_prefix`
(source line 56: `config_rule_name.find('-CONFORMANCE-PACK-')`). -/
def MARKER : Str := enc "-CONFORMANCE-PACK-"

/-- Python `str.find`: index of the first occurrence of `pat` in `s`,
`none` when there is no occurrence (Python returns `-1` there). -/
def pyFind (pat : Str) : Str → Option Nat
  | [] => if pat.isPrefixOf ([] : Str) then some 0 else none
  | c :: t =>
    if pat.isPrefixOf (c :: t) then some 0
    else (pyFind pat t).map (· + 1)

/-- Embedding of `get_prefix` (lambda_function.py lines 53-62): uppercase,
truncate strictly before the first occurrence of `MARKER` when present,
then remove every hyphen (`replace('-', '')`). -/
def get_prefix (config_rule_name : Str) : Str :=
  (match pyFind MARKER (pyUpper config_rule_name) with
   | some i => (pyUpper config_rule_name).take i
   | none => pyUpper config_rule_name).filter (fun c => c ≠ HYPHEN)

/-- Embedding of `INCONSISTENT_NAMES`
(load-config-rule-playbook-mapping.py lines 25-31). -/
def INCONSISTENT_NAMES : List (Str × Str) :=
  [(enc "ec2-instance-managed-by-systems-manager", enc "ec2-instance-managed-by-ssm"),
   (enc "ec2-instances-in-vpc", enc "instances-in-vpc"),
   (enc "restricted-common-ports", enc "restricted-incoming-traffic"),
   (enc "restricted-ssh", enc "incoming-ssh-disabled"),
   (enc "iam-password-policy", enc "iam-password-policy-check")]

/-- Embedding of `build_normalized_name`
(load-config-rule-playbook-mapping.py lines 39-46): replace an inconsistent
name by its alias, uppercase, remove hyphens, remove underscores. -/
def build_normalized_name (id : Str) : Str :=
  let id' := (INCONSISTENT_NAMES.lookup id).getD id
  ((pyUpper id').filter (fun c => c ≠ HYPHEN)).filter (fun c => c ≠ UNDERSCORE)

/-- One playbook entry as built by `load_playbooks`
(lambda_function.py lines 146-169); all five fields are always set there,
so they are total here. -/
structure Playbook where
  PlaybookId : Str
  LOEHours : Str
  LOESprints : Str
  SkillLevel : Str
  Rank : Str
deriving DecidableEq

/-- The `playbooks` dictionary: an association list from normalized rule-name
keys to playbook entry lists, looked up with `playbooks.get(prefix)`. -/
abbrev Catalog := List (Str × List Playbook)

/-- The `EvaluationResultQualifier` dictionary; each field is read with
`.get`, which yields `None` when the field is absent. -/
structure EvaluationResultQualifier where
  ConfigRuleName : Option Str
  ResourceType : Option Str
  ResourceId : Option Str
deriving DecidableEq

/-- The `EvaluationResultIdentifier` dictionary, holding the (possibly
absent) qualifier. -/
structure EvaluationResultIdentifier where
  EvaluationResultQualifier : Option MAIA.EvaluationResultQualifier
deriving DecidableEq

/-- One entry of `ConformancePackRuleEvaluationResults`, restricted to the
fields `process_remediations` reads. -/
structure EvaluationResult where
  ComplianceType : Option Str
  EvaluationResultIdentifier : Option MAIA.EvaluationResultIdentifier
deriving DecidableEq

/-- The `remediation` dictionary built in `process_remediations`
(lambda_function.py lines 88-100).  In the emitting branch
`ConfigRuleName` and `ResourceId` are known to be present, so they are
stored plain; `ResourceType` is stored as the raw `.get` result. -/
structure Remediation where
  ConfigRuleNamePlaybookIdResourceId : Str
  ConfigRuleName : Str
  ConfigRuleNamePrefix : Str
  PlaybookId : Str
  ResourceType : Option Str
  ResourceId : Str
  LOEHours : Str
  LOESprints : Str
  SkillLevel : Str
  Rank : Str
deriving DecidableEq

/-- The dedup key of a work item (the `key` variable of the source). -/
def remKey (r : Remediation) : Str :=
  r.ConfigRuleNamePlaybookIdResourceId

/-- The (normalized rule-name, playbook id, resource id) triple carried by a
work item. -/
def remTriple (r : Remediation) : Str × Str × Str :=
  ( Remediation.ConfigRuleNamePrefix r, r.PlaybookId, r.ResourceId)

/-- A work item's dedup key is the concatenation of its normalized rule-name,
playbook id and resource id fields, as built in the source. -/
def keyMatchesTriple (n : Remediation) : Prop :=
  remKey n = Remediation.ConfigRuleNamePrefix n ++ n.PlaybookId ++ n.ResourceId

/-- Python exceptions that can escape `process_remediations`:
`AttributeError` from calling a method on `None`, `TypeError` from
concatenating `None` into the key. -/
inductive PyError where
  | attributeError
  | typeError
deriving DecidableEq

/-- The `keys` dictionary of the source, used as a set of strings
(`keys[key] = 1` / `key in keys`); modelled as the list of inserted keys. -/
abbrev Keys := List Str

/-- The string `'NON_COMPLIANT'`. -/
def NON_COMPLIANT : Str := enc "NON_COMPLIANT"

/-- The work item built in the emitting branch of `process_remediations`
(lambda_function.py lines 88-101). -/
def mkRemediation (q : EvaluationResultQualifier) (crn prefx : Str)
    (pb : Playbook) (rid : Str) : Remediation :=
  { ConfigRuleNamePlaybookIdResourceId := prefx ++ pb.PlaybookId ++ rid
    ConfigRuleName := crn
    ConfigRuleNamePrefix := prefx
    PlaybookId := pb.PlaybookId
    ResourceType := q.ResourceType
    ResourceId := rid
    LOEHours := pb.LOEHours
    LOESprints := pb.LOESprints
    SkillLevel := pb.SkillLevel
    Rank := pb.Rank }

/-- The body of the inner `for playbook in config_playbooks` loop
(lambda_function.py lines 81-101) for one playbook: building `key`
concatenates `qualifier.get('ResourceId')`, which raises `TypeError`
when the resource id is absent. -/
def process_playbook (q : EvaluationResultQualifier) (crn prefx : Str)
    (pb : Playbook) (remediations : List Remediation) (keys : Keys) :
    Except PyError (List Remediation × Keys) :=
  match q.ResourceId with
  | none => .error .typeError
  | some rid =>
    let key := prefx ++ pb.PlaybookId ++ rid
    if key ∈ keys then .ok (remediations, keys)
    else .ok (remediations ++ [mkRemediation q crn prefx pb rid], keys ++ [key])

/-- The inner loop over all matched playbooks, threading the session state
and propagating the first raised exception. -/
def process_playbook_list (q : EvaluationResultQualifier) (crn prefx : Str) :
    List Playbook → List Remediation → Keys →
      Except PyError (List Remediation × Keys)
  | [], remediations, keys => .ok (remediations, keys)
  | pb :: rest, remediations, keys =>
    match process_playbook q crn prefx pb remediations keys with
    | .error e => .error e
    | .ok (r', k') => process_playbook_list q crn prefx rest r' k'

/-- The body of the outer `for result in results` loop of
`process_remediations` (lambda_function.py lines 72-101) for one result.
A missing `EvaluationResultIdentifier` or `EvaluationResultQualifier`
raises `AttributeError` at the `.get` chain; a missing `ConfigRuleName`
raises `AttributeError` inside `get_prefix` (`None.upper()`); a falsy
(`None` or empty) playbook list silently skips the result. -/
def process_result (playbooks : Catalog) (remediations : List Remediation)
    (keys : Keys) (result : EvaluationResult) :
    Except PyError (List Remediation × Keys) :=
  if result.ComplianceType = some NON_COMPLIANT then
    match result.EvaluationResultIdentifier with
    | none => .error .attributeError
    | some ident =>
      match ident.EvaluationResultQualifier with
      | none => .error .attributeError
      | some q =>
        match q.ConfigRuleName with
        | none => .error .attributeError
        | some crn =>
          match playbooks.lookup ( get_prefix crn) with
          | none => .ok (remediations, keys)
          | some [] => .ok (remediations, keys)
          | some (pb :: rest) =>
            process_playbook_list q crn ( get_prefix crn) (pb :: rest)
              remediations keys
  else .ok (remediations, keys)

/-- Embedding of `process_remediations` (lambda_function.py lines 65-107)
on one page of evaluation results: fold the per-result step over the page,
threading `(remediations, keys)` and propagating exceptions. -/
def process_remediations (results : List EvaluationResult)
    (playbooks : Catalog) (remediations : List Remediation) (keys : Keys) :
    Except PyError (List Remediation × Keys) :=
  match results with
  | [] => .ok (remediations, keys)
  | r :: rest =>
    match process_result playbooks remediations keys r with
    | .error e => .error e
    | .ok (r', k') => process_remediations rest playbooks r' k'

/-- A session as driven by `get_details` (lambda_function.py lines 110-134):
`process_remediations` applied page after page, the state returned by one
call threaded into the next. -/
def runSession (playbooks : Catalog) :
    List (List EvaluationResult) → List Remediation → Keys →
      Except PyError (List Remediation × Keys)
  | [], remediations, keys => .ok (remediations, keys)
  | page :: rest, remediations, keys =>
    match process_remediations page playbooks remediations keys with
    | .error e => .error e
    | .ok (r', k') => runSession playbooks rest r' k'

/-- A result lacks the identifier, the qualifier, or the rule name; each of
these raises before the catalog is even consulted. -/
def missingQualifierOrRuleName (r : EvaluationResult) : Prop :=
  r.EvaluationResultIdentifier = none ∨
  (∃ ident, r.EvaluationResultIdentifier = some ident ∧
    ident.EvaluationResultQualifier = none) ∨
  (∃ ident q, r.EvaluationResultIdentifier = some ident ∧
    ident.EvaluationResultQualifier = some q ∧ q.ConfigRuleName = none)

/-- One spreadsheet row as read by `main` of the loader script; a blank or
missing cell is modelled as the empty string (pandas `fillna('')`), which is
falsy in the source's `if` tests. -/
structure Row where
  config_rule_id : Str
  playbook_id : Str
  loe_hours : Str
  loe_sprints : Str
  skill_level : Str
  rank : Str
deriving DecidableEq

/-- One item built by the loader's `main`
(load-config-rule-playbook-mapping.py lines 88-114).  The source stores the
numeric defaults `1` for the last three fields and `str(1)` for `LOEHours`;
all four defaults are modelled as the string `"1"`. -/
structure CatalogItem where
  ConfigRuleName : Str
  PlaybookId : Str
  LOEHours : Str
  LOESprints : Str
  SkillLevel : Str
  Rank : Str
deriving DecidableEq

/-- `row.get(column) or default` for the effort columns. -/
def orDefault (v d : Str) : Str := if v = [] then d else v

/-- The dedup key used by the loader: `ConfigRuleName + '_' + PlaybookId`. -/
def itemKey (it : CatalogItem) : Str :=
  it.ConfigRuleName ++ [UNDERSCORE] ++ it.PlaybookId

/-- One iteration of the loader's row loop
(load-config-rule-playbook-mapping.py lines 82-114). -/
def load_step (acc : List CatalogItem × Keys) (row : Row) :
    List CatalogItem × Keys :=
  if row.config_rule_id ≠ [] ∧ row.playbook_id ≠ [] then
    let crn := build_normalized_name row.config_rule_id
    let key := crn ++ [UNDERSCORE] ++ row.playbook_id
    if key ∈ acc.2 then acc
    else
      (acc.1 ++ [{ ConfigRuleName := crn
                   PlaybookId := row.playbook_id
                   LOEHours := orDefault row.loe_hours (enc "1")
                   LOESprints := orDefault row.loe_sprints (enc "1")
                   SkillLevel := orDefault row.skill_level (enc "1")
                   Rank := orDefault row.rank (enc "1") }],
       acc.2 ++ [key])
  else acc

/-- The list of items the loader's `main` hands to the batch writer. -/
def main_items (rows : List Row) : List CatalogItem :=
  (List.foldl load_step ([], []) rows).1

/-- Occurrences of `pat` in a cons decompose into one at the head or one in
the tail. -/
theorem exists_occ_cons (pat : Str) (c : Nat) (t : Str) :
    (∃ a b, c :: t = a ++ pat ++ b) ↔
      (∃ b, c :: t = pat ++ b) ∨ (∃ a b, t = a ++ pat ++ b) := by
  constructor
  · rintro ⟨a, b, h⟩
    cases a with
    | nil => exact Or.inl ⟨b, by simpa using h⟩
    | cons x a' =>
      simp only [List.cons_append, List.cons.injEq] at h
      exact Or.inr ⟨a', b, h.2⟩
  · rintro (⟨b, h⟩ | ⟨a, b, h⟩)
    · exact ⟨[], b, by simpa using h⟩
    · refine ⟨c :: a, b, ?_⟩
      simp only [List.cons_append, List.cons.injEq]
      exact ⟨by trivial, h⟩

/-- Boolean `isPrefixOf` agrees with the existential description. -/
theorem isPrefixOf_iff_exists (pat s : Str) :
    pat.isPrefixOf s = true ↔ ∃ b, s = pat ++ b := by
  rw [List.isPrefixOf_iff_prefix]
  constructor
  · rintro ⟨b, h⟩; exact ⟨b, h.symm⟩
  · rintro ⟨b, h⟩; exact ⟨b, h.symm⟩

/-- The `none` result of `pyFind` characterizes absence of any occurrence. -/
theorem pyFind_eq_none_iff (pat s : Str) :
    pyFind pat s = none ↔ ¬ ∃ a b, s = a ++ pat ++ b := by
  induction s with
  | nil =>
    by_cases h : pat.isPrefixOf ([] : Str) = true
    · obtain ⟨b, hb⟩ := (isPrefixOf_iff_exists pat []).mp h
      simp only [pyFind, if_pos h]
      constructor
      · intro hc; cases hc
      · intro hc; exact absurd ⟨[], b, by simpa using hb⟩ hc
    · simp only [pyFind, if_neg h]
      constructor
      · rintro - ⟨a, b, hab⟩
        have hnil : a ++ pat ++ b = [] := hab.symm
        rw [List.append_assoc, List.append_eq_nil] at hnil
        rw [List.append_eq_nil] at hnil
        exact h ((isPrefixOf_iff_exists pat []).mpr
          ⟨[], by simp [hnil.2.1]⟩)
      · intro _; trivial
  | cons c t ih =>
    by_cases h : pat.isPrefixOf (c :: t) = true
    · obtain ⟨b, hb⟩ := (isPrefixOf_iff_exists pat (c :: t)).mp h
      simp only [pyFind, if_pos h]
      constructor
      · intro hc; cases hc
      · intro hc
        exact absurd ((exists_occ_cons pat c t).mpr (Or.inl ⟨b, hb⟩)) hc
    · simp only [pyFind, if_neg h, Option.map_eq_none']
      rw [ih, exists_occ_cons]
      have hnp : ¬ ∃ b, c :: t = pat ++ b := fun hc =>
        h ((isPrefixOf_iff_exists pat (c :: t)).mpr hc)
      constructor
      · intro hn hc
        rcases hc with hc | hc
        · exact hnp hc
        · exact hn hc
      · intro hn hc; exact hn (Or.inr hc)

/-- A `some i` result of `pyFind` is an occurrence at `i`, and `i` is minimal
among positions of occurrences. -/
theorem pyFind_eq_some (pat : Str) :
    ∀ (s : Str) (i : Nat), pyFind pat s = some i →
      (∃ b, s = s.take i ++ pat ++ b) ∧
        ∀ a' b', s = a' ++ pat ++ b' → i ≤ a'.length := by
  intro s
  induction s with
  | nil =>
    intro i h
    by_cases hp : pat.isPrefixOf ([] : Str) = true
    · simp only [pyFind, if_pos hp, Option.some.injEq] at h
      obtain ⟨b, hb⟩ := (isPrefixOf_iff_exists pat []).mp hp
      subst h
      exact ⟨⟨b, by simpa using hb⟩, fun a' b' _ => Nat.zero_le _⟩
    · simp only [pyFind, if_neg hp] at h
      exact Option.noConfusion h
  | cons c t ih =>
    intro i h
    by_cases hp : pat.isPrefixOf (c :: t) = true
    · simp only [pyFind, if_pos hp, Option.some.injEq] at h
      obtain ⟨b, hb⟩ := (isPrefixOf_iff_exists pat (c :: t)).mp hp
      subst h
      exact ⟨⟨b, by simpa using hb⟩, fun a' b' _ => Nat.zero_le _⟩
    · simp only [pyFind, if_neg hp, Option.map_eq_some'] at h
      obtain ⟨i', hi', hii⟩ := h
      obtain ⟨⟨b, hb⟩, hmin⟩ := ih i' hi'
      subst hii
      constructor
      · refine ⟨b, ?_⟩
        rw [List.take_succ_cons]
        simp only [List.cons_append, List.cons.injEq]
        exact ⟨by trivial, hb⟩
      · intro a' b' hab
        cases a' with
        | nil =>
          exact absurd ((isPrefixOf_iff_exists pat (c :: t)).mpr
            ⟨b', by simpa using hab⟩) (by simpa using hp)
        | cons x a'' =>
          simp only [List.cons_append, List.cons.injEq] at hab
          have := hmin a'' b' hab.2
          simp only [List.length_cons]
          omega

/-- Unfolding of `get_prefix` when the marker is absent. -/
theorem get_prefix_of_none (s : Str) (h : pyFind MARKER (pyUpper s) = none) :
    get_prefix s = (pyUpper s).filter (fun c => c ≠ HYPHEN) := by
  unfold get_prefix
  rw [h]

/-- Unfolding of `get_prefix` when the marker is first found at `i`. -/
theorem get_prefix_of_some (s : Str) (i : Nat)
    (h : pyFind MARKER (pyUpper s) = some i) :
    get_prefix s = ((pyUpper s).take i).filter (fun c => c ≠ HYPHEN) := by
  unfold get_prefix
  rw [h]

/-- Every code point of a `get_prefix` output is a non-hyphen uppercased image
of a code point of the input. -/
theorem get_prefix_mem (s : Str) (c : Nat) (hc : c ∈ get_prefix s) :
    c ≠ HYPHEN ∧ ∃ c0, c0 ∈ s ∧ c = pyCharUpper c0 := by
  unfold get_prefix at hc
  rw [List.mem_filter] at hc
  obtain ⟨hmem, hne⟩ := hc
  have hne' : c ≠ HYPHEN := by simpa using hne
  have hmem2 : c ∈ pyUpper s := by
    revert hmem
    cases pyFind MARKER (pyUpper s) with
    | some i => exact fun h => List.take_subset _ _ h
    | none => exact id
  rw [pyUpper, List.mem_map] at hmem2
  obtain ⟨c0, hc0s, hc0⟩ := hmem2
  exact ⟨hne', c0, hc0s, hc0.symm⟩

/-- Uppercasing one code point is idempotent. -/
theorem pyCharUpper_idem (c : Nat) :
    pyCharUpper (pyCharUpper c) = pyCharUpper c := by
  unfold pyCharUpper
  by_cases h : 97 ≤ c ∧ c ≤ 122
  · rw [if_pos h, if_neg (by omega)]
  · rw [if_neg h, if_neg h]

/-- `pyUpper` fixes a string all of whose code points it fixes. -/
theorem pyUpper_fixed (l : Str) (h : ∀ c ∈ l, pyCharUpper c = c) :
    pyUpper l = l := by
  induction l with
  | nil => rfl
  | cons c t ih =>
    simp only [pyUpper, List.map_cons] at *
    rw [h c (by simp), ih (fun d hd => h d (by simp [hd]))]

/-- Claim C2: `get_prefix` is total; it returns the uppercased input
truncated strictly before the first occurrence of the marker
`-CONFORMANCE-PACK-` when that marker occurs in the uppercased input,
otherwise the whole uppercased input, with every hyphen then removed;
it maps `"ABC-CONFORMANCE-PACK-XYZ123"` to `"ABC"` and `"my-rule-name"` to
`"MYRULENAME"`; and its output contains no hyphen and no lowercase ASCII
letter. -/
theorem C2_get_prefix_correct (s : Str) :
    ((∃ a b, pyUpper s = a ++ MARKER ++ b) →
      ∃ a b, pyUpper s = a ++ MARKER ++ b ∧
        (∀ a' b', pyUpper s = a' ++ MARKER ++ b' → a.length ≤ a'.length) ∧
        get_prefix s = a.filter (fun c => c ≠ HYPHEN)) ∧
    ((¬ ∃ a b, pyUpper s = a ++ MARKER ++ b) →
      get_prefix s = (pyUpper s).filter (fun c => c ≠ HYPHEN)) ∧
    (∀ c ∈ get_prefix s, c ≠ HYPHEN ∧ ¬ (97 ≤ c ∧ c ≤ 122)) ∧
    get_prefix (enc "ABC-CONFORMANCE-PACK-XYZ123") = enc "ABC" ∧
    get_prefix (enc "my-rule-name") = enc "MYRULENAME" := by
  refine ⟨?_, ?_, ?_, by decide, by decide⟩
  · intro hocc
    cases hfind : pyFind MARKER (pyUpper s) with
    | none => exact absurd hocc ((pyFind_eq_none_iff _ _).mp hfind)
    | some i =>
      obtain ⟨⟨b, hb⟩, hmin⟩ := pyFind_eq_some _ _ _ hfind
      refine ⟨(pyUpper s).take i, b, hb, ?_, get_prefix_of_some s i hfind⟩
      intro a' b' h'
      have h1 := hmin a' b' h'
      have h2 : ((pyUpper s).take i).length ≤ i := by
        simp [List.length_take]
      omega
  · intro hnocc
    cases hfind : pyFind MARKER (pyUpper s) with
    | none => exact get_prefix_of_none s hfind
    | some i =>
      obtain ⟨⟨b, hb⟩, -⟩ := pyFind_eq_some _ _ _ hfind
      exact absurd ⟨(pyUpper s).take i, b, hb⟩ hnocc
  · intro c hc
    obtain ⟨hne, c0, -, hc0⟩ := get_prefix_mem s c hc
    refine ⟨hne, ?_⟩
    rw [hc0]
    unfold pyCharUpper
    by_cases h : 97 ≤ c0 ∧ c0 ≤ 122
    · rw [if_pos h]; omega
    · rw [if_neg h]; omega

/-- Witness for C2 at the two documented inputs: the marker case and the
marker-free case. -/
theorem C2_witness :
    (∃ a b, pyUpper (enc "ABC-CONFORMANCE-PACK-XYZ123") = a ++ MARKER ++ b ∧
      (∀ a' b', pyUpper (enc "ABC-CONFORMANCE-PACK-XYZ123") = a' ++ MARKER ++ b' →
        a.length ≤ a'.length) ∧
      get_prefix (enc "ABC-CONFORMANCE-PACK-XYZ123") =
        a.filter (fun c => c ≠ HYPHEN)) ∧
    get_prefix (enc "my-rule-name") =
      (pyUpper (enc "my-rule-name")).filter (fun c => c ≠ HYPHEN) :=
  ⟨(C2_get_prefix_correct (enc "ABC-CONFORMANCE-PACK-XYZ123")).1
      ⟨enc "ABC", enc "XYZ123", by decide⟩,
   (C2_get_prefix_correct (enc "my-rule-name")).2.1
      ((pyFind_eq_none_iff MARKER (pyUpper (enc "my-rule-name"))).mp (by decide))⟩

/-- Claim C8: `get_prefix` is deterministic, and re-applying it is the
identity on its output whenever the marker does not occur in the uppercased
input. -/
theorem C8_deterministic_idempotent :
    (∀ x : Str, get_prefix x = get_prefix x) ∧
    (∀ x : Str, (¬ ∃ a b, pyUpper x = a ++ MARKER ++ b) →
      get_prefix ( get_prefix x) = get_prefix x) := by
  refine ⟨fun x => rfl, fun x _ => ?_⟩
  have hfix : ∀ c ∈ get_prefix x, pyCharUpper c = c := by
    intro c hc
    obtain ⟨-, c0, -, hc0⟩ := get_prefix_mem x c hc
    rw [hc0]
    exact pyCharUpper_idem c0
  have hup : pyUpper ( get_prefix x) = get_prefix x := pyUpper_fixed _ hfix
  have hnh : ∀ c ∈ get_prefix x, c ≠ HYPHEN :=
    fun c hc => (get_prefix_mem x c hc).1
  have hno : ¬ ∃ a b, pyUpper ( get_prefix x) = a ++ MARKER ++ b := by
    rw [hup]
    rintro ⟨a, b, hab⟩
    have hmem : HYPHEN ∈ get_prefix x := by
      rw [hab]
      have : HYPHEN ∈ MARKER := by decide
      simp [this]
    exact hnh _ hmem rfl
  have hfin : pyFind MARKER (pyUpper ( get_prefix x)) = none :=
    (pyFind_eq_none_iff _ _).mpr hno
  calc get_prefix ( get_prefix x)
      = (pyUpper ( get_prefix x)).filter (fun c => c ≠ HYPHEN) :=
        get_prefix_of_none _ hfin
    _ = ( get_prefix x).filter (fun c => c ≠ HYPHEN) := by rw [hup]
    _ = get_prefix x :=
        List.filter_eq_self.mpr (fun c hc => by simpa using hnh c hc)

/-- Witness for C8 at a marker-free input. -/
theorem C8_witness :
    get_prefix ( get_prefix (enc "my-rule-name")) =
      get_prefix (enc "my-rule-name") :=
  C8_deterministic_idempotent.2 (enc "my-rule-name")
    ((pyFind_eq_none_iff MARKER (pyUpper (enc "my-rule-name"))).mp (by decide))

/-- Counterexample to claim C3: the loader's normalization and the matcher's
normalization disagree on `"restricted-ssh"`, which the loader first aliases
to `"incoming-ssh-disabled"`. -/
theorem C3_counterexample :
    build_normalized_name (enc "restricted-ssh") ≠
      get_prefix (enc "restricted-ssh") := by decide

/-- Claim C3 (amended): the loader's `build_normalized_name` agrees with the
matcher's `get_prefix` on every rule name that is not a key of
`INCONSISTENT_NAMES`, contains no underscore, and whose uppercasing does not
contain the marker. -/
theorem C3_amended_loader_matcher_agree (s : Str)
    (halias : INCONSISTENT_NAMES.lookup s = none)
    (hund : UNDERSCORE ∉ s)
    (hmark : ¬ ∃ a b, pyUpper s = a ++ MARKER ++ b) :
    build_normalized_name s = get_prefix s := by
  have hfin : pyFind MARKER (pyUpper s) = none :=
    (pyFind_eq_none_iff _ _).mpr hmark
  unfold build_normalized_name
  rw [halias, Option.getD_none, get_prefix_of_none s hfin]
  apply List.filter_eq_self.mpr
  intro c hc
  rw [List.mem_filter] at hc
  obtain ⟨hcm, -⟩ := hc
  rw [pyUpper, List.mem_map] at hcm
  obtain ⟨c0, hc0s, hc0⟩ := hcm
  have hc0u : c0 ≠ UNDERSCORE := fun h => hund (h ▸ hc0s)
  simp only [decide_eq_true_eq]
  rw [← hc0]
  unfold pyCharUpper UNDERSCORE at *
  by_cases h : 97 ≤ c0 ∧ c0 ≤ 122
  · rw [if_pos h]; omega
  · rw [if_neg h]; omega

/-- Witness for the amended C3 at a rule name outside all three exceptional
cases. -/
theorem C3_amended_witness :
    build_normalized_name (enc "my-rule-name") =
      get_prefix (enc "my-rule-name") :=
  C3_amended_loader_matcher_agree (enc "my-rule-name") (by decide) (by decide)
    ((pyFind_eq_none_iff MARKER (pyUpper (enc "my-rule-name"))).mp (by decide))

/-- Case analysis of one `process_playbook` step that returned normally:
either the key was already seen and the state is unchanged, or the key and a
new work item were appended. -/
theorem process_playbook_ok (q : EvaluationResultQualifier) (crn prefx : Str)
    (pb : Playbook) (rems : List Remediation) (keys : Keys)
    (r1 : List Remediation) (k1 : Keys)
    (h : process_playbook q crn prefx pb rems keys = Except.ok (r1, k1)) :
    ∃ rid, q.ResourceId = some rid ∧
      ((prefx ++ pb.PlaybookId ++ rid ∈ keys ∧ r1 = rems ∧ k1 = keys) ∨
       (prefx ++ pb.PlaybookId ++ rid ∉ keys ∧
         r1 = rems ++ [mkRemediation q crn prefx pb rid] ∧
         k1 = keys ++ [prefx ++ pb.PlaybookId ++ rid])) := by
  cases hrid : q.ResourceId with
  | none => simp [process_playbook, hrid] at h
  | some rid =>
    refine ⟨rid, rfl, ?_⟩
    by_cases hk : prefx ++ pb.PlaybookId ++ rid ∈ keys
    · rw [process_playbook, hrid] at h
      simp only [if_pos hk, Except.ok.injEq, Prod.mk.injEq] at h
      exact Or.inl ⟨hk, h.1.symm, h.2.symm⟩
    · rw [process_playbook, hrid] at h
      simp only [if_neg hk, Except.ok.injEq, Prod.mk.injEq] at h
      exact Or.inr ⟨hk, h.1.symm, h.2.symm⟩

/-- Extension property of the inner playbook loop: a normal return only
appends; the appended keys are exactly the keys of the appended items, are
new with respect to the incoming key set, are pairwise distinct, and each
appended item's key is its field concatenation. -/
theorem process_playbook_list_extend (q : EvaluationResultQualifier)
    (crn prefx : Str) (pbs : List Playbook) :
    ∀ (rems : List Remediation) (keys : Keys) (rems' : List Remediation)
      (ks' : Keys),
      process_playbook_list q crn prefx pbs rems keys = Except.ok (rems', ks') →
      ∃ new, rems' = rems ++ new ∧ ks' = keys ++ new.map remKey ∧
        (new.map remKey).Nodup ∧ (∀ n ∈ new, remKey n ∉ keys) ∧
        (∀ n ∈ new, keyMatchesTriple n) := by
  induction pbs with
  | nil =>
    intro rems keys rems' ks' h
    simp only [process_playbook_list, Except.ok.injEq, Prod.mk.injEq] at h
    obtain ⟨rfl, rfl⟩ := h
    exact ⟨[], by simp, by simp, by simp, by simp, by simp⟩
  | cons pb rest ih =>
    intro rems keys rems' ks' h
    cases hpb : process_playbook q crn prefx pb rems keys with
    | error e => simp [process_playbook_list, hpb] at h
    | ok st =>
      obtain ⟨r1, k1⟩ := st
      simp only [process_playbook_list, hpb] at h
      obtain ⟨new2, h1, h2, h3, h4, h5⟩ := ih r1 k1 rems' ks' h
      obtain ⟨rid, hrid, hcase⟩ :=
        process_playbook_ok q crn prefx pb rems keys r1 k1 hpb
      rcases hcase with ⟨hk, rfl, rfl⟩ | ⟨hk, rfl, rfl⟩
      · exact ⟨new2, h1, h2, h3, h4, h5⟩
      · refine ⟨mkRemediation q crn prefx pb rid :: new2, ?_, ?_, ?_, ?_, ?_⟩
        · rw [h1]; simp
        · rw [h2]; simp [remKey, mkRemediation]
        · rw [List.map_cons, List.nodup_cons]
          refine ⟨?_, h3⟩
          intro hmem
          rw [List.mem_map] at hmem
          obtain ⟨n, hn, hkey⟩ := hmem
          refine h4 n hn ?_
          rw [hkey]
          simp [remKey, mkRemediation]
        · intro n hn
          rcases List.mem_cons.mp hn with rfl | hn2
          · simpa [remKey, mkRemediation] using hk
          · intro hmem
            exact h4 n hn2 (List.mem_append_left _ hmem)
        · intro n hn
          rcases List.mem_cons.mp hn with rfl | hn2
          · rfl
          · exact h5 n hn2

/-- Extension property of one `process_result` step. -/
theorem process_result_extend (playbooks : Catalog)
    (rems : List Remediation) (keys : Keys) (r1 : List Remediation) (k1 : Keys)
    (r : EvaluationResult)
    (h : process_result playbooks rems keys r = Except.ok (r1, k1)) :
    ∃ new, r1 = rems ++ new ∧ k1 = keys ++ new.map remKey ∧
      (new.map remKey).Nodup ∧ (∀ n ∈ new, remKey n ∉ keys) ∧
      (∀ n ∈ new, keyMatchesTriple n) := by
  by_cases hct : r.ComplianceType = some NON_COMPLIANT
  · cases hid : r.EvaluationResultIdentifier with
    | none => simp [process_result, if_pos hct, hid] at h
    | some ident =>
      cases hq : ident.EvaluationResultQualifier with
      | none => simp [process_result, if_pos hct, hid, hq] at h
      | some q =>
        cases hcrn : q.ConfigRuleName with
        | none => simp [process_result, if_pos hct, hid, hq, hcrn] at h
        | some crn =>
          cases hcat : playbooks.lookup ( get_prefix crn) with
          | none =>
            simp only [process_result, if_pos hct, hid, hq, hcrn, hcat,
              Except.ok.injEq, Prod.mk.injEq] at h
            obtain ⟨rfl, rfl⟩ := h
            exact ⟨[], by simp, by simp, by simp, by simp, by simp⟩
          | some pbs =>
            cases pbs with
            | nil =>
              simp only [process_result, if_pos hct, hid, hq, hcrn, hcat,
                Except.ok.injEq, Prod.mk.injEq] at h
              obtain ⟨rfl, rfl⟩ := h
              exact ⟨[], by simp, by simp, by simp, by simp, by simp⟩
            | cons pb rest =>
              simp only [process_result, if_pos hct, hid, hq, hcrn, hcat] at h
              exact process_playbook_list_extend q crn _ _ _ _ _ _ h
  · simp only [process_result, if_neg hct, Except.ok.injEq, Prod.mk.injEq] at h
    obtain ⟨rfl, rfl⟩ := h
    exact ⟨[], by simp, by simp, by simp, by simp, by simp⟩

/-- Extension property of `process_remediations` over one whole page. -/
theorem process_remediations_extend (playbooks : Catalog) :
    ∀ (results : List EvaluationResult) (rems : List Remediation) (keys : Keys)
      (rems' : List Remediation) (ks' : Keys),
      process_remediations results playbooks rems keys = Except.ok (rems', ks') →
      ∃ new, rems' = rems ++ new ∧ ks' = keys ++ new.map remKey ∧
        (new.map remKey).Nodup ∧ (∀ n ∈ new, remKey n ∉ keys) ∧
        (∀ n ∈ new, keyMatchesTriple n) := by
  intro results
  induction results with
  | nil =>
    intro rems keys rems' ks' h
    simp only [process_remediations, Except.ok.injEq, Prod.mk.injEq] at h
    obtain ⟨rfl, rfl⟩ := h
    exact ⟨[], by simp, by simp, by simp, by simp, by simp⟩
  | cons r rest ih =>
    intro rems keys rems' ks' h
    cases hr : process_result playbooks rems keys r with
    | error e => simp [process_remediations, hr] at h
    | ok st =>
      obtain ⟨r1, k1⟩ := st
      simp only [process_remediations, hr] at h
      obtain ⟨new1, e1, e2, e3, e4, e5⟩ :=
        process_result_extend playbooks rems keys r1 k1 r hr
      obtain ⟨new2, f1, f2, f3, f4, f5⟩ := ih r1 k1 rems' ks' h
      subst e1; subst e2
      refine ⟨new1 ++ new2, by simp [f1], by simp [f2], ?_, ?_, ?_⟩
      · rw [List.map_append, List.nodup_append]
        refine ⟨e3, f3, ?_⟩
        intro a ha1 ha2
        rw [List.mem_map] at ha1 ha2
        obtain ⟨n1, hn1, rfl⟩ := ha1
        obtain ⟨n2, hn2, hkk⟩ := ha2
        refine f4 n2 hn2 ?_
        rw [hkk]
        exact List.mem_append_right _ (List.mem_map_of_mem _ hn1)
      · intro n hn
        rcases List.mem_append.mp hn with hn1 | hn2
        · exact e4 n hn1
        · intro hm
          exact f4 n hn2 (List.mem_append_left _ hm)
      · intro n hn
        rcases List.mem_append.mp hn with hn1 | hn2
        · exact e5 n hn1
        · exact f5 n hn2

/-- Extension property of a whole multi-page session. -/
theorem runSession_extend (playbooks : Catalog) :
    ∀ (pages : List (List EvaluationResult)) (rems : List Remediation)
      (keys : Keys) (rems' : List Remediation) (ks' : Keys),
      runSession playbooks pages rems keys = Except.ok (rems', ks') →
      ∃ new, rems' = rems ++ new ∧ ks' = keys ++ new.map remKey ∧
        (new.map remKey).Nodup ∧ (∀ n ∈ new, remKey n ∉ keys) ∧
        (∀ n ∈ new, keyMatchesTriple n) := by
  intro pages
  induction pages with
  | nil =>
    intro rems keys rems' ks' h
    simp only [runSession, Except.ok.injEq, Prod.mk.injEq] at h
    obtain ⟨rfl, rfl⟩ := h
    exact ⟨[], by simp, by simp, by simp, by simp, by simp⟩
  | cons page rest ih =>
    intro rems keys rems' ks' h
    cases hr : process_remediations page playbooks rems keys with
    | error e => simp [runSession, hr] at h
    | ok st =>
      obtain ⟨r1, k1⟩ := st
      simp only [runSession, hr] at h
      obtain ⟨new1, e1, e2, e3, e4, e5⟩ :=
        process_remediations_extend playbooks page rems keys r1 k1 hr
      obtain ⟨new2, f1, f2, f3, f4, f5⟩ := ih r1 k1 rems' ks' h
      subst e1; subst e2
      refine ⟨new1 ++ new2, by simp [f1], by simp [f2], ?_, ?_, ?_⟩
      · rw [List.map_append, List.nodup_append]
        refine ⟨e3, f3, ?_⟩
        intro a ha1 ha2
        rw [List.mem_map] at ha1 ha2
        obtain ⟨n1, hn1, rfl⟩ := ha1
        obtain ⟨n2, hn2, hkk⟩ := ha2
        refine f4 n2 hn2 ?_
        rw [hkk]
        exact List.mem_append_right _ (List.mem_map_of_mem _ hn1)
      · intro n hn
        rcases List.mem_append.mp hn with hn1 | hn2
        · exact e4 n hn1
        · intro hm
          exact f4 n hn2 (List.mem_append_left _ hm)
      · intro n hn
        rcases List.mem_append.mp hn with hn1 | hn2
        · exact e5 n hn1
        · exact f5 n hn2

/-- Claim C10: a call of `process_remediations` only extends the session
state: the input accumulator is a prefix of the output, the input key set is
contained in the output key set, and the newly added keys are exactly the
keys of the newly appended work items, one each. -/
theorem C10_process_remediations_frame (page : List EvaluationResult)
    (playbooks : Catalog) (remediations : List Remediation) (keys : Keys)
    (rems' : List Remediation) (ks' : Keys)
    (h : process_remediations page playbooks remediations keys =
      Except.ok (rems', ks')) :
    ∃ new, rems' = remediations ++ new ∧ ks' = keys ++ new.map remKey ∧
      (new.map remKey).Nodup ∧ ∀ k ∈ keys, k ∈ ks' := by
  obtain ⟨new, h1, h2, h3, -, -⟩ :=
    process_remediations_extend playbooks page remediations keys rems' ks' h
  refine ⟨new, h1, h2, h3, ?_⟩
  intro k hk
  rw [h2]
  exact List.mem_append_left _ hk

/-- Witness for C10 on a one-result page processed from a one-item state. -/
theorem C10_witness :
    ∃ new,
      [(⟨enc "ABPr", enc "a-b", enc "AB", enc "P", some (enc "T"), enc "r",
          enc "2", enc "1", enc "2", enc "1"⟩ : Remediation)] =
        ([] : List Remediation) ++ new ∧
      [enc "ABPr"] = ([] : Keys) ++ new.map remKey ∧
      (new.map remKey).Nodup ∧ ∀ k ∈ ([] : Keys), k ∈ [enc "ABPr"] :=
  C10_process_remediations_frame
    [⟨some NON_COMPLIANT,
      some ⟨some ⟨some (enc "a-b"), some (enc "T"), some (enc "r")⟩⟩⟩]
    [(enc "AB", [⟨enc "P", enc "2", enc "1", enc "2", enc "1"⟩])] [] [] _ _
    (by rfl)

/-- Claim C1: a session that threads the same state through every page-level
call and returns normally accumulates work items with pairwise-distinct
dedup keys, hence at most one item per (normalized rule-name, playbook id,
resource id) triple. -/
theorem C1_session_unique_keys (playbooks : Catalog)
    (pages : List (List EvaluationResult)) (rems : List Remediation)
    (ks : Keys)
    (h : runSession playbooks pages [] [] = Except.ok (rems, ks)) :
    rems.Pairwise (fun a b => remKey a ≠ remKey b) ∧
    rems.Pairwise (fun a b => remTriple a ≠ remTriple b) := by
  obtain ⟨new, h1, h2, h3, -, h5⟩ :=
    runSession_extend playbooks pages [] [] rems ks h
  simp only [List.nil_append] at h1
  subst h1
  have hpw : rems.Pairwise (fun a b => remKey a ≠ remKey b) := by
    have h3' := h3
    unfold List.Nodup at h3'
    rw [List.pairwise_map] at h3'
    exact h3'
  refine ⟨hpw, ?_⟩
  refine List.Pairwise.imp_of_mem ?_ hpw
  intro a b ha hb hne heq
  apply hne
  have hta := h5 a ha
  have htb := h5 b hb
  unfold keyMatchesTriple at hta htb
  have h1' : ( Remediation.ConfigRuleNamePrefix a) =
      Remediation.ConfigRuleNamePrefix b := congrArg Prod.fst heq
  have h2' : a.PlaybookId = b.PlaybookId :=
    congrArg (fun t => t.2.1) heq
  have h3' : a.ResourceId = b.ResourceId :=
    congrArg (fun t => t.2.2) heq
  rw [hta, htb, h1', h2', h3']

/-- Witness for C1: the same non-compliant result on two successive pages of
one session yields a single work item, whose one-element list is trivially
pairwise-distinct. -/
theorem C1_witness :
    ([(⟨enc "ABPr", enc "a-b", enc "AB", enc "P", some (enc "T"), enc "r",
        enc "2", enc "1", enc "2", enc "1"⟩ : Remediation)]).Pairwise
      (fun a b => remKey a ≠ remKey b) ∧
    ([(⟨enc "ABPr", enc "a-b", enc "AB", enc "P", some (enc "T"), enc "r",
        enc "2", enc "1", enc "2", enc "1"⟩ : Remediation)]).Pairwise
      (fun a b => remTriple a ≠ remTriple b) :=
  C1_session_unique_keys
    [(enc "AB", [⟨enc "P", enc "2", enc "1", enc "2", enc "1"⟩])]
    [[⟨some NON_COMPLIANT,
        some ⟨some ⟨some (enc "a-b"), some (enc "T"), some (enc "r")⟩⟩⟩],
     [⟨some NON_COMPLIANT,
        some ⟨some ⟨some (enc "a-b"), some (enc "T"), some (enc "r")⟩⟩⟩]] _ _
    (by rfl)

/-- An exception raised by the per-result step on some member of a page
propagates out of the whole page-level call. -/
theorem process_remediations_error_of_mem (playbooks : Catalog)
    (r : EvaluationResult)
    (herr : ∀ (rems : List Remediation) (keys : Keys),
      ∃ e, process_result playbooks rems keys r = Except.error e) :
    ∀ (page : List EvaluationResult), r ∈ page →
      ∀ (rems : List Remediation) (keys : Keys),
        ∃ e, process_remediations page playbooks rems keys = Except.error e := by
  intro page
  induction page with
  | nil => intro hmem; cases hmem
  | cons p rest ih =>
    intro hmem rems keys
    rcases List.mem_cons.mp hmem with rfl | hmem2
    · obtain ⟨e, he⟩ := herr rems keys
      exact ⟨e, by simp [process_remediations, he]⟩
    · cases hp : process_result playbooks rems keys p with
      | error e => exact ⟨e, by simp [process_remediations, hp]⟩
      | ok st =>
        obtain ⟨r1, k1⟩ := st
        obtain ⟨e, he⟩ := ih hmem2 r1 k1
        exact ⟨e, by simp [process_remediations, hp, he]⟩

/-- A non-compliant result missing the identifier, the qualifier or the rule
name makes the per-result step raise, whatever the state. -/
theorem process_result_error_of_missing (playbooks : Catalog)
    (rems : List Remediation) (keys : Keys) (r : EvaluationResult)
    (hct : r.ComplianceType = some NON_COMPLIANT)
    (hmiss : missingQualifierOrRuleName r) :
    ∃ e, process_result playbooks rems keys r = Except.error e := by
  rcases hmiss with hid | ⟨ident, hid, hq⟩ | ⟨ident, q, hid, hq, hcrn⟩
  · exact ⟨.attributeError, by simp [process_result, hct, hid]⟩
  · exact ⟨.attributeError, by simp [process_result, hct, hid, hq]⟩
  · exact ⟨.attributeError, by simp [process_result, hct, hid, hq, hcrn]⟩

/-- A non-compliant result with a rule name but no resource id makes the
per-result step raise as soon as its normalized name matches a nonempty
playbook list. -/
theorem process_result_error_of_missing_rid (playbooks : Catalog)
    (rems : List Remediation) (keys : Keys) (r : EvaluationResult)
    (ident : EvaluationResultIdentifier) (q : EvaluationResultQualifier)
    (crn : Str) (pb : Playbook) (rest : List Playbook)
    (hct : r.ComplianceType = some NON_COMPLIANT)
    (hid : r.EvaluationResultIdentifier = some ident)
    (hq : ident.EvaluationResultQualifier = some q)
    (hcrn : q.ConfigRuleName = some crn)
    (hrid : q.ResourceId = none)
    (hcat : playbooks.lookup ( get_prefix crn) = some (pb :: rest)) :
    ∃ e, process_result playbooks rems keys r = Except.error e := by
  refine ⟨.typeError, ?_⟩
  simp [process_result, hct, hid, hq, hcrn, hcat,
    process_playbook_list, process_playbook, hrid]

/-- A non-compliant result whose normalized rule name is unmatched (absent
or mapped to an empty list) is skipped silently, whatever the rest of the
qualifier contains. -/
theorem process_result_skip_of_unmatched (playbooks : Catalog)
    (rems : List Remediation) (keys : Keys) (r : EvaluationResult)
    (ident : EvaluationResultIdentifier) (q : EvaluationResultQualifier)
    (crn : Str)
    (hct : r.ComplianceType = some NON_COMPLIANT)
    (hid : r.EvaluationResultIdentifier = some ident)
    (hq : ident.EvaluationResultQualifier = some q)
    (hcrn : q.ConfigRuleName = some crn)
    (hcat : playbooks.lookup ( get_prefix crn) = none ∨
      playbooks.lookup ( get_prefix crn) = some []) :
    process_result playbooks rems keys r = Except.ok (rems, keys) := by
  rcases hcat with hcat | hcat <;>
    simp [process_result, hct, hid, hq, hcrn, hcat]

/-- Counterexample to claim C4: a NON_COMPLIANT result lacking its required
`ResourceId` whose normalized rule name is unmatched in the catalog is
silently dropped; `process_remediations` completes normally instead of
failing. -/
theorem C4_counterexample :
    (⟨some NON_COMPLIANT, some ⟨some ⟨some (enc "a-b"), none, none⟩⟩⟩ :
        EvaluationResult).ComplianceType = some NON_COMPLIANT ∧
    (∃ ident q,
      (⟨some NON_COMPLIANT, some ⟨some ⟨some (enc "a-b"), none, none⟩⟩⟩ :
          EvaluationResult).EvaluationResultIdentifier = some ident ∧
      ident.EvaluationResultQualifier = some q ∧ q.ResourceId = none) ∧
    process_remediations
      [⟨some NON_COMPLIANT, some ⟨some ⟨some (enc "a-b"), none, none⟩⟩⟩]
      [] [] [] = Except.ok ([], []) :=
  ⟨rfl, ⟨_, _, rfl, rfl, rfl⟩, rfl⟩

/-- Claim C4 (amended): a NON_COMPLIANT result missing the identifier, the
qualifier or the `ConfigRuleName` always raises an error that propagates out
of `process_remediations`; one missing only `ResourceId` raises exactly when
its normalized rule name maps to a nonempty playbook list, and is silently
skipped when the name is unmatched or maps to an empty list. -/
theorem C4_amended_malformed_result_handling :
    (∀ (playbooks : Catalog) (page : List EvaluationResult)
       (rems : List Remediation) (keys : Keys) (r : EvaluationResult),
       r ∈ page → r.ComplianceType = some NON_COMPLIANT →
       missingQualifierOrRuleName r →
       ∃ e, process_remediations page playbooks rems keys = Except.error e) ∧
    (∀ (playbooks : Catalog) (page : List EvaluationResult)
       (rems : List Remediation) (keys : Keys) (r : EvaluationResult)
       (ident : EvaluationResultIdentifier) (q : EvaluationResultQualifier)
       (crn : Str) (pb : Playbook) (rest : List Playbook),
       r ∈ page → r.ComplianceType = some NON_COMPLIANT →
       r.EvaluationResultIdentifier = some ident →
       ident.EvaluationResultQualifier = some q →
       q.ConfigRuleName = some crn → q.ResourceId = none →
       playbooks.lookup ( get_prefix crn) = some (pb :: rest) →
       ∃ e, process_remediations page playbooks rems keys = Except.error e) ∧
    (∀ (playbooks : Catalog) (rems : List Remediation) (keys : Keys)
       (r : EvaluationResult) (ident : EvaluationResultIdentifier)
       (q : EvaluationResultQualifier) (crn : Str),
       r.ComplianceType = some NON_COMPLIANT →
       r.EvaluationResultIdentifier = some ident →
       ident.EvaluationResultQualifier = some q →
       q.ConfigRuleName = some crn → q.ResourceId = none →
       (playbooks.lookup ( get_prefix crn) = none ∨
        playbooks.lookup ( get_prefix crn) = some []) →
       process_result playbooks rems keys r = Except.ok (rems, keys)) := by
  refine ⟨?_, ?_, ?_⟩
  · intro playbooks page rems keys r hmem hct hmiss
    exact process_remediations_error_of_mem playbooks r
      (fun rems1 keys1 =>
        process_result_error_of_missing playbooks rems1 keys1 r hct hmiss)
      page hmem rems keys
  · intro playbooks page rems keys r ident q crn pb rest hmem hct hid hq hcrn
      hrid hcat
    exact process_remediations_error_of_mem playbooks r
      (fun rems1 keys1 =>
        process_result_error_of_missing_rid playbooks rems1 keys1 r ident q crn
          pb rest hct hid hq hcrn hrid hcat)
      page hmem rems keys
  · intro playbooks rems keys r ident q crn hct hid hq hcrn _ hcat
    exact process_result_skip_of_unmatched playbooks rems keys r ident q crn
      hct hid hq hcrn hcat

/-- Witness for the amended C4: the three cases at concrete inputs — missing
identifier raises, missing resource id with a matched rule raises, missing
resource id with an unmatched rule is silently skipped. -/
theorem C4_amended_witness :
    (∃ e, process_remediations [⟨some NON_COMPLIANT, none⟩] [] [] [] =
      Except.error e) ∧
    (∃ e, process_remediations
      [⟨some NON_COMPLIANT, some ⟨some ⟨some (enc "a"), none, none⟩⟩⟩]
      [(enc "A", [⟨enc "P", enc "1", enc "1", enc "1", enc "1"⟩])] [] [] =
      Except.error e) ∧
    process_result []  []  []
      (⟨some NON_COMPLIANT, some ⟨some ⟨some (enc "a"), none, none⟩⟩⟩ :
        EvaluationResult) = Except.ok ([], []) :=
  ⟨C4_amended_malformed_result_handling.1 [] _ [] []
      ⟨some NON_COMPLIANT, none⟩ (by simp) rfl (Or.inl rfl),
   C4_amended_malformed_result_handling.2.1
      [(enc "A", [⟨enc "P", enc "1", enc "1", enc "1", enc "1"⟩])] _ [] []
      ⟨some NON_COMPLIANT, some ⟨some ⟨some (enc "a"), none, none⟩⟩⟩
      ⟨some ⟨some (enc "a"), none, none⟩⟩ ⟨some (enc "a"), none, none⟩
      (enc "a") ⟨enc "P", enc "1", enc "1", enc "1", enc "1"⟩ []
      (by simp) rfl rfl rfl rfl rfl (by rfl),
   C4_amended_malformed_result_handling.2.2 [] [] []
      ⟨some NON_COMPLIANT, some ⟨some ⟨some (enc "a"), none, none⟩⟩⟩
      ⟨some ⟨some (enc "a"), none, none⟩⟩ ⟨some (enc "a"), none, none⟩
      (enc "a") rfl rfl rfl rfl rfl (Or.inl rfl)⟩

/-- Claim C5: a result whose compliance type is anything other than
NON_COMPLIANT contributes no work item and no key, whatever the catalog;
a page of such results leaves the state untouched. -/
theorem C5_compliance_filtering :
    (∀ (playbooks : Catalog) (rems : List Remediation) (keys : Keys)
       (r : EvaluationResult), r.ComplianceType ≠ some NON_COMPLIANT →
       process_result playbooks rems keys r = Except.ok (rems, keys)) ∧
    (∀ (playbooks : Catalog) (rems : List Remediation) (keys : Keys)
       (page : List EvaluationResult),
       (∀ r ∈ page, r.ComplianceType ≠ some NON_COMPLIANT) →
       process_remediations page playbooks rems keys =
         Except.ok (rems, keys)) := by
  have h1 : ∀ (playbooks : Catalog) (rems : List Remediation) (keys : Keys)
      (r : EvaluationResult), r.ComplianceType ≠ some NON_COMPLIANT →
      process_result playbooks rems keys r = Except.ok (rems, keys) := by
    intro playbooks rems keys r hct
    simp [process_result, if_neg hct]
  refine ⟨h1, ?_⟩
  intro playbooks rems keys page
  induction page with
  | nil => intro _; rfl
  | cons p rest ih =>
    intro hall
    have hp := h1 playbooks rems keys p (hall p (by simp))
    simp only [process_remediations, hp]
    exact ih (fun r hr => hall r (by simp [hr]))

/-- Witness for C5: a COMPLIANT result whose rule name does match the
catalog still produces nothing. -/
theorem C5_witness :
    process_result [(enc "A", [⟨enc "P", enc "1", enc "1", enc "1", enc "1"⟩])]
      [] []
      (⟨some (enc "COMPLIANT"),
        some ⟨some ⟨some (enc "a"), some (enc "T"), some (enc "r")⟩⟩⟩ :
        EvaluationResult) = Except.ok ([], []) :=
  C5_compliance_filtering.1
    [(enc "A", [⟨enc "P", enc "1", enc "1", enc "1", enc "1"⟩])] [] []
    ⟨some (enc "COMPLIANT"),
      some ⟨some ⟨some (enc "a"), some (enc "T"), some (enc "r")⟩⟩⟩
    (by decide)

/-- The inner loop appends one item and one key per playbook when the
resource id is present, none of the keys is already seen, and the playbook
ids are pairwise distinct. -/
theorem process_playbook_list_all_new (q : EvaluationResultQualifier)
    (crn prefx rid : Str) (hrid : q.ResourceId = some rid) :
    ∀ (pbs : List Playbook) (rems : List Remediation) (keys : Keys),
      (∀ pb ∈ pbs, (prefx ++ pb.PlaybookId ++ rid) ∉ keys) →
      pbs.Pairwise (fun a b => a.PlaybookId ≠ b.PlaybookId) →
      process_playbook_list q crn prefx pbs rems keys =
        Except.ok
          (rems ++ pbs.map (fun pb => mkRemediation q crn prefx pb rid),
           keys ++ pbs.map (fun pb => prefx ++ pb.PlaybookId ++ rid)) := by
  intro pbs
  induction pbs with
  | nil => intro rems keys _ _; simp [process_playbook_list]
  | cons pb rest ih =>
    intro rems keys hnew hdist
    have hk : (prefx ++ pb.PlaybookId ++ rid) ∉ keys := hnew pb (by simp)
    simp only [process_playbook_list, process_playbook, hrid, if_neg hk]
    rw [ih (rems ++ [mkRemediation q crn prefx pb rid])
        (keys ++ [prefx ++ pb.PlaybookId ++ rid]) ?_ (List.pairwise_cons.mp hdist).2]
    · simp
    · intro pb2 h2
      rw [List.mem_append]
      rintro (hin | hin)
      · exact hnew pb2 (by simp [h2]) hin
      · rw [List.mem_singleton] at hin
        have hids : pb2.PlaybookId = pb.PlaybookId :=
          List.append_cancel_left (List.append_cancel_right hin)
        exact (List.pairwise_cons.mp hdist).1 pb2 h2 hids.symm

/-- Distinct playbook ids give pairwise-distinct dedup keys. -/
theorem keys_map_nodup (prefx rid : Str) (pbs : List Playbook)
    (hdist : pbs.Pairwise (fun a b => a.PlaybookId ≠ b.PlaybookId)) :
    (pbs.map (fun pb => prefx ++ pb.PlaybookId ++ rid)).Nodup := by
  unfold List.Nodup
  rw [List.pairwise_map]
  exact hdist.imp (fun hab heq =>
    hab (List.append_cancel_left (List.append_cancel_right heq)))

/-- Claim C6: a NON_COMPLIANT result whose normalized rule name maps to a
list of playbooks with pairwise-distinct ids, processed from fresh session
state, yields exactly one work item per catalog entry — built by
`mkRemediation` from that entry's fields — with pairwise-distinct keys. -/
theorem C6_multi_playbook_fanout (playbooks : Catalog) (r : EvaluationResult)
    (ident : EvaluationResultIdentifier) (q : EvaluationResultQualifier)
    (crn rid : Str) (pbs : List Playbook)
    (hct : r.ComplianceType = some NON_COMPLIANT)
    (hid : r.EvaluationResultIdentifier = some ident)
    (hq : ident.EvaluationResultQualifier = some q)
    (hcrn : q.ConfigRuleName = some crn)
    (hrid : q.ResourceId = some rid)
    (hcat : playbooks.lookup ( get_prefix crn) = some pbs)
    (hdist : pbs.Pairwise (fun a b => a.PlaybookId ≠ b.PlaybookId)) :
    process_result playbooks [] [] r =
      Except.ok
        (pbs.map (fun pb => mkRemediation q crn ( get_prefix crn) pb rid),
         pbs.map (fun pb => get_prefix crn ++ pb.PlaybookId ++ rid)) ∧
    (pbs.map (fun pb => get_prefix crn ++ pb.PlaybookId ++ rid)).Nodup := by
  refine ⟨?_, keys_map_nodup _ rid pbs hdist⟩
  cases pbs with
  | nil => simp [process_result, hct, hid, hq, hcrn, hcat]
  | cons pb rest =>
    simp only [process_result, hct, hid, hq, hcrn, hcat, if_pos rfl]
    have := process_playbook_list_all_new q crn ( get_prefix crn) rid hrid
      (pb :: rest) [] [] (by simp) hdist
    simpa using this

/-- Witness for C6: one result fanning out over a three-playbook catalog
entry. -/
theorem C6_witness :
    process_result
      [(enc "A",
        [⟨enc "P1", enc "1", enc "1", enc "1", enc "1"⟩,
         ⟨enc "P2", enc "2", enc "2", enc "2", enc "2"⟩,
         ⟨enc "P3", enc "3", enc "3", enc "3", enc "3"⟩])] [] []
      (⟨some NON_COMPLIANT,
        some ⟨some ⟨some (enc "a"), some (enc "T"), some (enc "r")⟩⟩⟩ :
        EvaluationResult) =
      Except.ok
        (([⟨enc "P1", enc "1", enc "1", enc "1", enc "1"⟩,
           ⟨enc "P2", enc "2", enc "2", enc "2", enc "2"⟩,
           ⟨enc "P3", enc "3", enc "3", enc "3", enc "3"⟩] :
            List Playbook).map
          (fun pb => mkRemediation ⟨some (enc "a"), some (enc "T"), some (enc "r")⟩
            (enc "a") ( get_prefix (enc "a")) pb (enc "r")),
         ([⟨enc "P1", enc "1", enc "1", enc "1", enc "1"⟩,
           ⟨enc "P2", enc "2", enc "2", enc "2", enc "2"⟩,
           ⟨enc "P3", enc "3", enc "3", enc "3", enc "3"⟩] :
            List Playbook).map
          (fun pb => get_prefix (enc "a") ++ pb.PlaybookId ++ enc "r")) ∧
    (([⟨enc "P1", enc "1", enc "1", enc "1", enc "1"⟩,
       ⟨enc "P2", enc "2", enc "2", enc "2", enc "2"⟩,
       ⟨enc "P3", enc "3", enc "3", enc "3", enc "3"⟩] :
        List Playbook).map
      (fun pb => get_prefix (enc "a") ++ pb.PlaybookId ++ enc "r")).Nodup :=
  C6_multi_playbook_fanout
    [(enc "A",
      [⟨enc "P1", enc "1", enc "1", enc "1", enc "1"⟩,
       ⟨enc "P2", enc "2", enc "2", enc "2", enc "2"⟩,
       ⟨enc "P3", enc "3", enc "3", enc "3", enc "3"⟩])]
    ⟨some NON_COMPLIANT,
      some ⟨some ⟨some (enc "a"), some (enc "T"), some (enc "r")⟩⟩⟩
    ⟨some ⟨some (enc "a"), some (enc "T"), some (enc "r")⟩⟩
    ⟨some (enc "a"), some (enc "T"), some (enc "r")⟩
    (enc "a") (enc "r") _
    rfl rfl rfl rfl rfl (by rfl) (by decide)

/-- Claim C7: a NON_COMPLIANT result whose normalized rule name is absent
from the catalog, or maps to an empty entry list, produces no work item and
no error: the per-result step returns the state unchanged. -/
theorem C7_unmatched_silent (playbooks : Catalog) (rems : List Remediation)
    (keys : Keys) (r : EvaluationResult) (ident : EvaluationResultIdentifier)
    (q : EvaluationResultQualifier) (crn : Str)
    (hct : r.ComplianceType = some NON_COMPLIANT)
    (hid : r.EvaluationResultIdentifier = some ident)
    (hq : ident.EvaluationResultQualifier = some q)
    (hcrn : q.ConfigRuleName = some crn)
    (hcat : playbooks.lookup ( get_prefix crn) = none ∨
      playbooks.lookup ( get_prefix crn) = some []) :
    process_result playbooks rems keys r = Except.ok (rems, keys) :=
  process_result_skip_of_unmatched playbooks rems keys r ident q crn
    hct hid hq hcrn hcat

/-- Witness for C7 at an empty catalog. -/
theorem C7_witness :
    process_result [] [] []
      (⟨some NON_COMPLIANT,
        some ⟨some ⟨some (enc "a"), some (enc "T"), some (enc "r")⟩⟩⟩ :
        EvaluationResult) = Except.ok ([], []) :=
  C7_unmatched_silent [] [] []
    ⟨some NON_COMPLIANT,
      some ⟨some ⟨some (enc "a"), some (enc "T"), some (enc "r")⟩⟩⟩
    ⟨some ⟨some (enc "a"), some (enc "T"), some (enc "r")⟩⟩
    ⟨some (enc "a"), some (enc "T"), some (enc "r")⟩
    (enc "a") rfl rfl rfl rfl (Or.inl rfl)

/-- Invariant of the loader's row fold: every emitted item's dedup key is in
the key set, and the emitted items have pairwise-distinct dedup keys. -/
theorem load_fold_invariant :
    ∀ (rows : List Row) (items : List CatalogItem) (keys : Keys),
      (∀ it ∈ items, itemKey it ∈ keys) →
      items.Pairwise (fun a b => itemKey a ≠ itemKey b) →
      (∀ it ∈ (List.foldl load_step (items, keys) rows).1,
        itemKey it ∈ (List.foldl load_step (items, keys) rows).2) ∧
      (List.foldl load_step (items, keys) rows).1.Pairwise
        (fun a b => itemKey a ≠ itemKey b) := by
  intro rows
  induction rows with
  | nil => intro items keys h1 h2; exact ⟨h1, h2⟩
  | cons row rest ih =>
    intro items keys h1 h2
    rw [List.foldl_cons]
    by_cases hc : row.config_rule_id ≠ [] ∧ row.playbook_id ≠ []
    · by_cases hk : (build_normalized_name row.config_rule_id ++
          UNDERSCORE :: row.playbook_id) ∈ keys
      · have hstep : load_step (items, keys) row = (items, keys) := by
          simp [load_step, hc, hk]
        rw [hstep]
        exact ih items keys h1 h2
      · have hstep : load_step (items, keys) row =
            (items ++
              [{ ConfigRuleName := build_normalized_name row.config_rule_id
                 PlaybookId := row.playbook_id
                 LOEHours := orDefault row.loe_hours (enc "1")
                 LOESprints := orDefault row.loe_sprints (enc "1")
                 SkillLevel := orDefault row.skill_level (enc "1")
                 Rank := orDefault row.rank (enc "1") }],
             keys ++
              [build_normalized_name row.config_rule_id ++
                UNDERSCORE :: row.playbook_id]) := by
          simp [load_step, hc, hk]
        rw [hstep]
        apply ih
        · intro it hit
          rcases List.mem_append.mp hit with h | h
          · exact List.mem_append_left _ (h1 it h)
          · rw [List.mem_singleton] at h
            subst h
            exact List.mem_append_right _ (by simp [itemKey])
        · rw [List.pairwise_append]
          refine ⟨h2, List.pairwise_singleton _ _, ?_⟩
          intro a ha b hb
          rw [List.mem_singleton] at hb
          intro heq
          apply hk
          have hkey : itemKey b = build_normalized_name row.config_rule_id ++
              UNDERSCORE :: row.playbook_id := by
            rw [hb]; simp [itemKey]
          rw [← hkey, ← heq]
          exact h1 a ha
    · have hstep : load_step (items, keys) row = (items, keys) := by
        simp [load_step, hc]
      rw [hstep]
      exact ih items keys h1 h2

/-- Claim C9: the items the loader emits for storage have pairwise-distinct
(ConfigRuleName, PlaybookId) pairs. -/
theorem C9_loader_dedup (rows : List Row) :
    (main_items rows).Pairwise
      (fun a b => ¬(a.ConfigRuleName = b.ConfigRuleName ∧
        a.PlaybookId = b.PlaybookId)) := by
  have h := (load_fold_invariant rows [] [] (by simp) (by simp)).2
  unfold main_items
  refine h.imp ?_
  intro a b hne hpair
  exact hne (by simp [itemKey, hpair.1, hpair.2])

end MAIA
